import Mathlib

/-!
# Universal Privacy Engine — verification of the core protocols

A shallow embedding, in Lean 4, of the core cryptographic protocols of the
Universal Privacy Engine repository:

* the recorded-TLS-session proof verifier (`src/core/src/data_source/zktls.rs`),
* the notary message-hash construction (`src/core/src/notary/mod.rs`),
* the RWA claim, its schema validator, the Merkle inclusion verifier and the
  zkVM guest program (`src/core/src/rwa.rs`, `src/core/src/agent/validator.rs`,
  `src/guest/rwa_compliance/src/main.rs`, `src/cli/src/bin/generate_inputs.rs`),
* the hash-chained audit trail (`src/core/src/logging/audit.rs`).

Machine integers (`u64`, `U256`) are modelled as `Nat`; byte strings as
`List Nat`.  Cryptographic primitives (SHA-256, Keccak-256, Ed25519) are
abstract parameters of the model: every theorem quantifies over them, and the
facts that depend on their behaviour (collision freeness at a specific pair of
inputs, non-zero digests) appear as explicit hypotheses, instantiated by the
witnesses with concrete functions.
-/

namespace UPE

/-! ## Byte-level utilities -/

/-- Little-endian byte encoding on `k` bytes: models Rust's `u64::to_le_bytes`
(for `k = 8`) — byte `i` is `(n >> (8*i)) & 0xFF`. -/
def leBytes (k n : Nat) : List Nat :=
  (List.range k).map (fun i => n / 256 ^ i % 256)

/-- Big-endian byte encoding on `k` bytes: models `U256::to_big_endian` (for
`k = 32`) — the most significant byte first. -/
def beBytes (k n : Nat) : List Nat :=
  (List.range k).map (fun i => n / 256 ^ (k - 1 - i) % 256)

/-- Recover the number encoded by a big-endian byte list. -/
def beDecode (bs : List Nat) : Nat :=
  bs.foldl (fun acc b => 256 * acc + b) 0

theorem leBytes_length (k n : Nat) : (leBytes k n).length = k := by
  simp [leBytes]

/-- Explicit expansion of the 8-byte little-endian encoding. -/
theorem leBytes_eight (n : Nat) :
    leBytes 8 n =
      [n % 256, n / 256 % 256, n / 256 ^ 2 % 256, n / 256 ^ 3 % 256,
       n / 256 ^ 4 % 256, n / 256 ^ 5 % 256, n / 256 ^ 6 % 256,
       n / 256 ^ 7 % 256] := by
  simp [leBytes, List.range_succ]

theorem beBytes_length (k n : Nat) : (beBytes k n).length = k := by
  simp [beBytes]

theorem beBytes_succ (k n : Nat) :
    beBytes (k + 1) n = (n / 256 ^ k % 256) :: beBytes k n := by
  simp only [beBytes, List.range_succ_eq_map, List.map_cons, List.map_map]
  congr 1
  apply List.map_congr_left
  intro i _
  simp only [Function.comp_apply, Nat.succ_eq_add_one]
  have hk : k + 1 - 1 - (i + 1) = k - 1 - i := by omega
  rw [hk]

theorem beDecode_go (bs : List Nat) (a : Nat) :
    bs.foldl (fun acc b => 256 * acc + b) a =
      a * 256 ^ bs.length + bs.foldl (fun acc b => 256 * acc + b) 0 := by
  induction bs generalizing a with
  | nil => simp
  | cons b rest ih =>
    simp only [List.foldl_cons, List.length_cons]
    rw [ih (256 * a + b), ih (256 * 0 + b)]
    ring

/-- `beBytes` really is the big-endian encoding: decoding it recovers
`n % 256^k`. -/
theorem beDecode_beBytes (k n : Nat) : beDecode (beBytes k n) = n % 256 ^ k := by
  induction k with
  | zero => simp [beBytes, beDecode, Nat.mod_one]
  | succ k ih =>
    rw [beBytes_succ]
    simp only [beDecode, List.foldl_cons] at *
    rw [beDecode_go]
    rw [ih]
    have h256 : (256 : Nat) ^ (k + 1) = 256 ^ k * 256 := by ring
    rw [h256, Nat.mod_mul]
    simp [beBytes_length]
    ring

/-- Value of one hex digit, or `none`: models the `hex` crate's per-character
decoding (accepts `0-9`, `a-f`, `A-F`). -/
def hexDigitVal (c : Char) : Option Nat :=
  if '0' ≤ c ∧ c ≤ '9' then some (c.toNat - '0'.toNat)
  else if 'a' ≤ c ∧ c ≤ 'f' then some (c.toNat - 'a'.toNat + 10)
  else if 'A' ≤ c ∧ c ≤ 'F' then some (c.toNat - 'A'.toNat + 10)
  else none

/-- Hex decoding of a character list: fails on odd length or any non-hex
character, as `hex::decode` does. -/
def hexDecodeList : List Char → Option (List Nat)
  | [] => some []
  | [_] => none
  | c1 :: c2 :: rest =>
    match hexDigitVal c1, hexDigitVal c2, hexDecodeList rest with
    | some h, some l, some bs => some ((16 * h + l) :: bs)
    | _, _, _ => none

/-- Models `hex::decode` on a Rust `String`. -/
def hexDecode (s : String) : Option (List Nat) :=
  hexDecodeList s.data

/-! ## Recorded TLS proof (`src/core/src/data_source/zktls.rs`) -/

/-- The error enumeration `ZkTlsError` of `zktls.rs`, with the same payloads. -/
inductive ZkTlsError where
  | DomainMismatch (expected got : String)
  | CertChainMismatch
  | ResponseTampered
  | ReplayDetected (timestamp max_age : Nat)
  | SignatureInvalid (reason : String)
deriving DecidableEq, Repr

/-- The struct `RecordedTlsProof` of `zktls.rs`.  All fields that are
hex-encoded strings in the source stay `String` here; `timestamp` is `u64`,
modelled as `Nat`. -/
structure RecordedTlsProof where
  domain : String
  timestamp : Nat
  response_hash : String
  cert_chain_hash : String
  notary_pubkey : String
  signature : String
deriving DecidableEq, Repr

/-- The cryptographic primitives `zktls.rs` calls into, kept abstract:
`sha256hex` models `sha256_hex` (SHA-256 then hex encoding); `parseVk` models
`VerifyingKey::from_bytes` (which can reject non-canonical point encodings,
returning an error message); `edVerify` models `VerifyingKey::verify` on a
message and a 64-byte signature. -/
structure TlsCrypto (VK : Type) where
  sha256hex : List Nat → String
  parseVk : List Nat → Except String VK
  edVerify : VK → String → List Nat → Bool

/-- The constant `MAX_FUTURE_SKEW_SECS` of `RecordedTlsProof::verify`. -/
def MAX_FUTURE_SKEW_SECS : Nat := 300

/-- The canonical message of the notary signature,
`"{domain}:{timestamp}:{response_hash}:{cert_chain_hash}"`, built from the
proof's own fields. -/
def RecordedTlsProof.canonicalMessage (p : RecordedTlsProof) : String :=
  p.domain ++ ":" ++ toString p.timestamp ++ ":" ++ p.response_hash ++ ":" ++
    p.cert_chain_hash

/-- `RecordedTlsProof::verify_signature`: rebuild the canonical message from
the proof's fields, hex-decode `notary_pubkey` (exactly 32 bytes) and
`signature` (exactly 64 bytes), parse the verifying key, and check the
Ed25519 signature. -/
def RecordedTlsProof.verify_signature {VK : Type} (c : TlsCrypto VK)
    (p : RecordedTlsProof) : Except ZkTlsError Unit :=
  match hexDecode p.notary_pubkey with
  | none => .error (.SignatureInvalid "Bad hex in notary_pubkey")
  | some pub_key_bytes =>
    if pub_key_bytes.length ≠ 32 then
      .error (.SignatureInvalid
        ("Invalid public key length: " ++ toString pub_key_bytes.length ++ " bytes"))
    else
      match hexDecode p.signature with
      | none => .error (.SignatureInvalid "Bad hex in signature")
      | some sig_bytes =>
        if sig_bytes.length ≠ 64 then
          .error (.SignatureInvalid
            ("Invalid signature length: " ++ toString sig_bytes.length ++ " bytes"))
        else
          match c.parseVk pub_key_bytes with
          | .error e => .error (.SignatureInvalid ("VerifyingKey parse error: " ++ e))
          | .ok verifying_key =>
            if c.edVerify verifying_key
                (p.domain ++ ":" ++ toString p.timestamp ++ ":" ++
                  p.response_hash ++ ":" ++ p.cert_chain_hash) sig_bytes then
              .ok ()
            else .error (.SignatureInvalid "Cryptographic verification failed")

/-- `RecordedTlsProof::verify`: six checks in source order — domain, max-age
(replay), future skew, certificate-chain hash, response-body hash, notary
signature. -/
def RecordedTlsProof.verify {VK : Type} (c : TlsCrypto VK)
    (p : RecordedTlsProof) (expected_domain : String)
    (cert_chain_pem response_body : List Nat)
    (current_time max_age_secs : Nat) : Except ZkTlsError Unit :=
  if p.domain ≠ expected_domain then
    .error (.DomainMismatch expected_domain p.domain)
  else if current_time > p.timestamp + max_age_secs then
    .error (.ReplayDetected p.timestamp max_age_secs)
  else if p.timestamp > current_time + MAX_FUTURE_SKEW_SECS then
    .error (.SignatureInvalid "Timestamp is in the future")
  else if c.sha256hex cert_chain_pem ≠ p.cert_chain_hash then
    .error .CertChainMismatch
  else if c.sha256hex response_body ≠ p.response_hash then
    .error .ResponseTampered
  else
    match RecordedTlsProof.verify_signature c p with
    | .error e => .error e
    | .ok _ => .ok ()

/-- Characterization of a successful signature check: all decodes succeed with
the exact required lengths, the key parses, and the abstract Ed25519 check
accepts the canonical message. -/
theorem verify_signature_ok_iff {VK : Type} (c : TlsCrypto VK)
    (p : RecordedTlsProof) :
    p.verify_signature c = .ok () ↔
      ∃ kb sb vk, hexDecode p.notary_pubkey = some kb ∧ kb.length = 32 ∧
        hexDecode p.signature = some sb ∧ sb.length = 64 ∧
        c.parseVk kb = .ok vk ∧ c.edVerify vk p.canonicalMessage sb = true := by
  unfold RecordedTlsProof.verify_signature
  cases hpk : hexDecode p.notary_pubkey with
  | none => simp
  | some kb =>
    by_cases h32 : kb.length = 32
    · simp only [h32, ne_eq, not_true_eq_false, if_false]
      cases hsg : hexDecode p.signature with
      | none => simp
      | some sb =>
        by_cases h64 : sb.length = 64
        · simp only [h64, ne_eq, not_true_eq_false, if_false]
          cases hvk : c.parseVk kb with
          | error e => simp [hvk]
          | ok vk =>
            by_cases hver : c.edVerify vk p.canonicalMessage sb = true
            · simp only [RecordedTlsProof.canonicalMessage] at hver
              simp [hver, h32, h64, hvk, RecordedTlsProof.canonicalMessage]
            · simp only [RecordedTlsProof.canonicalMessage, Bool.not_eq_true] at hver
              simp [hver, hvk, RecordedTlsProof.canonicalMessage]
        · simp [h64]
    · simp [h32]

/-- Every failure of the signature check surfaces as `SignatureInvalid`. -/
theorem verify_signature_error_shape {VK : Type} (c : TlsCrypto VK)
    (p : RecordedTlsProof) (e : ZkTlsError)
    (h : p.verify_signature c = .error e) : ∃ s, e = .SignatureInvalid s := by
  unfold RecordedTlsProof.verify_signature at h
  repeat any_goals split at h
  all_goals
    first
      | (injection h with h2; exact ⟨_, h2.symm⟩)
      | simp_all

/-- C1: `RecordedTlsProof::verify` evaluates its six checks in the exact order
domain equality, max-age (replay), future skew, cert-chain hash, response-body
hash, signature; on any input violating several conditions, the error of the
first failing check in that order surfaces, with the payloads
`DomainMismatch{expected, got}`, `ReplayDetected{timestamp, max_age}`, a
`SignatureInvalid` error flagging the future timestamp, `CertChainMismatch`,
`ResponseTampered`, and `SignatureInvalid` respectively. -/
theorem c1_verify_check_order {VK : Type} (c : TlsCrypto VK)
    (p : RecordedTlsProof) (expected_domain : String)
    (cert body : List Nat) (t ma : Nat) :
    (p.domain ≠ expected_domain →
      p.verify c expected_domain cert body t ma =
        .error (.DomainMismatch expected_domain p.domain)) ∧
    (p.domain = expected_domain → t > p.timestamp + ma →
      p.verify c expected_domain cert body t ma =
        .error (.ReplayDetected p.timestamp ma)) ∧
    (p.domain = expected_domain → t ≤ p.timestamp + ma →
      p.timestamp > t + MAX_FUTURE_SKEW_SECS →
      p.verify c expected_domain cert body t ma =
        .error (.SignatureInvalid "Timestamp is in the future")) ∧
    (p.domain = expected_domain → t ≤ p.timestamp + ma →
      p.timestamp ≤ t + MAX_FUTURE_SKEW_SECS →
      c.sha256hex cert ≠ p.cert_chain_hash →
      p.verify c expected_domain cert body t ma = .error .CertChainMismatch) ∧
    (p.domain = expected_domain → t ≤ p.timestamp + ma →
      p.timestamp ≤ t + MAX_FUTURE_SKEW_SECS →
      c.sha256hex cert = p.cert_chain_hash →
      c.sha256hex body ≠ p.response_hash →
      p.verify c expected_domain cert body t ma = .error .ResponseTampered) ∧
    (p.domain = expected_domain → t ≤ p.timestamp + ma →
      p.timestamp ≤ t + MAX_FUTURE_SKEW_SECS →
      c.sha256hex cert = p.cert_chain_hash →
      c.sha256hex body = p.response_hash →
      p.verify c expected_domain cert body t ma = p.verify_signature c ∧
        ∀ e, p.verify_signature c = .error e → ∃ s, e = .SignatureInvalid s) := by
  refine ⟨?_, ?_, ?_, ?_, ?_, ?_⟩
  · intro h
    simp [RecordedTlsProof.verify, h]
  · intro hd hr
    simp only [RecordedTlsProof.verify, hd]
    simp [Nat.not_le.mpr hr, hr]
  · intro hd hr hf
    simp only [RecordedTlsProof.verify, hd]
    simp [Nat.not_lt.mpr hr, Nat.not_le.mpr hf, hf]
  · intro hd hr hf hc
    simp only [RecordedTlsProof.verify, hd]
    simp [Nat.not_lt.mpr hr, Nat.not_lt.mpr hf, hc]
  · intro hd hr hf hc hb
    simp only [RecordedTlsProof.verify, hd]
    simp [Nat.not_lt.mpr hr, Nat.not_lt.mpr hf, hc, hb]
  · intro hd hr hf hc hb
    constructor
    · simp only [RecordedTlsProof.verify, hd]
      simp only [Nat.not_lt.mpr hr, Nat.not_lt.mpr hf, hc, hb]
      simp only [ne_eq, not_true_eq_false, if_false, gt_iff_lt,
        if_neg (Nat.not_lt.mpr hr), if_neg (Nat.not_lt.mpr hf)]
      cases hvs : p.verify_signature c with
      | error e => simp [hvs]
      | ok u => cases u; simp [hvs]
    · exact fun e he => verify_signature_error_shape c p e he

/-- C4: the signature check reconstructs the canonical UTF-8 message
`"{domain}:{timestamp}:{response_hash}:{cert_chain_hash}"` from the proof's
own fields (its type takes no caller-supplied certificate or body bytes),
hex-decodes `notary_pubkey` and `signature` requiring exactly 32 and 64 bytes
(non-hex input or any other length yields a `SignatureInvalid` decode error),
and succeeds exactly when the Ed25519 check accepts that message under the
decoded key. -/
theorem c4_verify_signature_spec {VK : Type} (c : TlsCrypto VK)
    (p : RecordedTlsProof) :
    (p.verify_signature c = .ok () ↔
      ∃ kb sb vk, hexDecode p.notary_pubkey = some kb ∧ kb.length = 32 ∧
        hexDecode p.signature = some sb ∧ sb.length = 64 ∧
        c.parseVk kb = .ok vk ∧ c.edVerify vk p.canonicalMessage sb = true) ∧
    (p.canonicalMessage = p.domain ++ ":" ++ toString p.timestamp ++ ":" ++
      p.response_hash ++ ":" ++ p.cert_chain_hash) ∧
    (hexDecode p.notary_pubkey = none →
      p.verify_signature c = .error (.SignatureInvalid "Bad hex in notary_pubkey")) ∧
    (∀ kb, hexDecode p.notary_pubkey = some kb → kb.length ≠ 32 →
      p.verify_signature c = .error (.SignatureInvalid
        ("Invalid public key length: " ++ toString kb.length ++ " bytes"))) ∧
    (∀ kb, hexDecode p.notary_pubkey = some kb → kb.length = 32 →
      hexDecode p.signature = none →
      p.verify_signature c = .error (.SignatureInvalid "Bad hex in signature")) ∧
    (∀ kb sb, hexDecode p.notary_pubkey = some kb → kb.length = 32 →
      hexDecode p.signature = some sb → sb.length ≠ 64 →
      p.verify_signature c = .error (.SignatureInvalid
        ("Invalid signature length: " ++ toString sb.length ++ " bytes"))) := by
  refine ⟨verify_signature_ok_iff c p, rfl, ?_, ?_, ?_, ?_⟩
  · intro h
    simp [RecordedTlsProof.verify_signature, h]
  · intro kb hkb h32
    simp [RecordedTlsProof.verify_signature, hkb, h32]
  · intro kb hkb h32 hsg
    simp [RecordedTlsProof.verify_signature, hkb, h32, hsg]
  · intro kb sb hkb h32 hsg h64
    simp [RecordedTlsProof.verify_signature, hkb, h32, hsg, h64]

/-- C2 (amended): an honestly produced proof — hashes matching the caller's
certificate and body bytes, signature valid over the canonical message under
the proof's own notary key — verifies whenever `t ≤ p.timestamp + max_age`
and, additionally, the proof's timestamp is not implausibly far in the future
(`p.timestamp ≤ t + MAX_FUTURE_SKEW_SECS`), a condition the original claim
omits. -/
theorem c2_honest_proof_verifies {VK : Type} (c : TlsCrypto VK)
    (p : RecordedTlsProof) (cert body : List Nat) (t ma : Nat)
    (hcert : p.cert_chain_hash = c.sha256hex cert)
    (hresp : p.response_hash = c.sha256hex body)
    (hsig : ∃ kb sb vk, hexDecode p.notary_pubkey = some kb ∧ kb.length = 32 ∧
      hexDecode p.signature = some sb ∧ sb.length = 64 ∧
      c.parseVk kb = .ok vk ∧ c.edVerify vk p.canonicalMessage sb = true)
    (hage : t ≤ p.timestamp + ma)
    (hskew : p.timestamp ≤ t + MAX_FUTURE_SKEW_SECS) :
    p.verify c p.domain cert body t ma = .ok () := by
  have hvs : p.verify_signature c = .ok () := (verify_signature_ok_iff c p).mpr hsig
  simp only [RecordedTlsProof.verify]
  simp [Nat.not_lt.mpr hage, Nat.not_lt.mpr hskew, hcert, hresp, hvs]

/-- A concrete instantiation of the abstract crypto primitives, used to
evaluate the model on closed inputs: constant hash, always-parsing key,
always-accepting signature check. -/
def trivialTlsCrypto : TlsCrypto Unit where
  sha256hex := fun _ => "h"
  parseVk := fun _ => .ok ()
  edVerify := fun _ _ _ => true

/-- A concrete recorded proof whose metadata is honest for
`trivialTlsCrypto` and whose timestamp is 301 seconds into the future of
`current_time = 0`. -/
def futureProof : RecordedTlsProof where
  domain := "example.com"
  timestamp := 301
  response_hash := "h"
  cert_chain_hash := "h"
  notary_pubkey :=
    "0000000000000000000000000000000000000000000000000000000000000000"
  signature :=
    "00000000000000000000000000000000000000000000000000000000000000000000000000000000000000000000000000000000000000000000000000000000"

/-- C2 counterexample: `futureProof` is honest (its hashes match the caller's
bytes and its signature is valid over the canonical message under its own
notary key), and `current_time = 0 ≤ timestamp + max_age`, yet `verify`
returns a `SignatureInvalid` future-timestamp error instead of `Ok(())`,
because the future-skew check (step 3) also stands between the claim's
premise and success. -/
theorem c2_counterexample :
    futureProof.cert_chain_hash = trivialTlsCrypto.sha256hex [] ∧
    futureProof.response_hash = trivialTlsCrypto.sha256hex [] ∧
    (∃ kb sb vk, hexDecode futureProof.notary_pubkey = some kb ∧
      kb.length = 32 ∧ hexDecode futureProof.signature = some sb ∧
      sb.length = 64 ∧ trivialTlsCrypto.parseVk kb = .ok vk ∧
      trivialTlsCrypto.edVerify vk futureProof.canonicalMessage sb = true) ∧
    (0 : Nat) ≤ futureProof.timestamp + 1000 ∧
    futureProof.verify trivialTlsCrypto futureProof.domain [] [] 0 1000 =
      .error (.SignatureInvalid "Timestamp is in the future") := by
  refine ⟨rfl, rfl,
    ⟨List.replicate 32 0, List.replicate 64 0, (), ?_, rfl, ?_, rfl, rfl, rfl⟩,
    by omega, rfl⟩
  · rfl
  · rfl

/-- Witness for C1 at a concrete input: a mismatched expected domain yields
`DomainMismatch` with both fields populated. -/
theorem c1_witness :
    futureProof.domain ≠ "other.com" ∧
    futureProof.verify trivialTlsCrypto "other.com" [] [] 0 1000 =
      .error (.DomainMismatch "other.com" "example.com") :=
  ⟨by decide,
    (c1_verify_check_order trivialTlsCrypto futureProof "other.com"
      [] [] 0 1000).1 (by decide)⟩

/-- Witness for the amended C2 at a concrete input. -/
theorem c2_witness :
    ((302 : Nat) ≤ futureProof.timestamp + 100 ∧
      futureProof.timestamp ≤ 302 + MAX_FUTURE_SKEW_SECS) ∧
    futureProof.verify trivialTlsCrypto futureProof.domain [] [] 302 100 =
      .ok () :=
  ⟨⟨by decide, by decide⟩,
    c2_honest_proof_verifies trivialTlsCrypto futureProof [] [] 302 100
      rfl rfl
      ⟨List.replicate 32 0, List.replicate 64 0, (), rfl, rfl, rfl, rfl, rfl, rfl⟩
      (by decide) (by decide)⟩

/-- A proof whose `notary_pubkey` is not valid hex. -/
def badHexProof : RecordedTlsProof :=
  { futureProof with notary_pubkey := "zz" }

/-- Witness for C4 at a concrete input: non-hex `notary_pubkey` yields the
`SignatureInvalid` decode error. -/
theorem c4_witness :
    hexDecode badHexProof.notary_pubkey = none ∧
    badHexProof.verify_signature trivialTlsCrypto =
      .error (.SignatureInvalid "Bad hex in notary_pubkey") :=
  ⟨rfl, (c4_verify_signature_spec trivialTlsCrypto badHexProof).2.2.1 rfl⟩

/-! ## Notary signer (`src/core/src/notary/mod.rs`) -/

/-- Overwrite `src.length` bytes of `buf` starting at offset `off`: models the
`copy_from_slice` / `to_big_endian`-into-slice writes of
`NotarySigner::create_message_hash`. -/
def writeSlice (buf : List Nat) (off : Nat) (src : List Nat) : List Nat :=
  buf.take off ++ src ++ buf.drop (off + src.length)

/-- `NotarySigner::create_message_hash`: an 84-byte buffer is filled with the
employee address's 20 raw bytes at offset 0, the salary as a 32-byte
big-endian integer at offset 20, and the timestamp as a 32-byte big-endian
integer at offset 52, then Keccak-256-hashed (`keccak` abstract). -/
def create_message_hash {H : Type} (keccak : List Nat → H)
    (employee : List Nat) (salary timestamp : Nat) : H :=
  let buf0 := List.replicate 84 0
  let buf1 := writeSlice buf0 0 employee
  let buf2 := writeSlice buf1 20 (beBytes 32 salary)
  let buf3 := writeSlice buf2 52 (beBytes 32 timestamp)
  keccak buf3

/-- C5: for every 20-byte employee address and every `U256` salary and
timestamp, `create_message_hash` is the Keccak-256 hash of the 84-byte
concatenation address ‖ salary (32-byte big-endian) ‖ timestamp (32-byte
big-endian), with no padding between fields; the big-endian encodings decode
back to the original values. -/
theorem c5_create_message_hash_spec {H : Type} (keccak : List Nat → H)
    (employee : List Nat) (salary timestamp : Nat)
    (hlen : employee.length = 20)
    (hs : salary < 2 ^ 256) (ht : timestamp < 2 ^ 256) :
    create_message_hash keccak employee salary timestamp =
      keccak (employee ++ beBytes 32 salary ++ beBytes 32 timestamp) ∧
    (employee ++ beBytes 32 salary ++ beBytes 32 timestamp).length = 84 ∧
    beDecode (beBytes 32 salary) = salary ∧
    beDecode (beBytes 32 timestamp) = timestamp := by
  have hpow : (2 : Nat) ^ 256 = 256 ^ 32 := by norm_num
  have hS : (beBytes 32 salary).length = 32 := beBytes_length _ _
  have hT : (beBytes 32 timestamp).length = 32 := beBytes_length _ _
  refine ⟨?_, ?_, ?_, ?_⟩
  · have e1 : writeSlice (List.replicate 84 0) 0 employee
        = employee ++ List.replicate 64 0 := by
      simp [writeSlice, hlen, List.drop_replicate]
    have hEt : employee.take 20 = employee := by
      rw [← hlen]; exact List.take_length employee
    have hEd : employee.drop 52 = [] := List.drop_eq_nil_of_le (by omega)
    have e2 : writeSlice (employee ++ List.replicate 64 0) 20 (beBytes 32 salary)
        = employee ++ beBytes 32 salary ++ List.replicate 32 0 := by
      simp [writeSlice, hS, List.take_append_eq_append_take,
        List.drop_append_eq_append_drop, hlen, hEt, hEd,
        List.take_replicate, List.drop_replicate]
    have hESl : (employee ++ beBytes 32 salary).length = 52 := by
      simp [hlen, hS]
    have hESt : (employee ++ beBytes 32 salary).take 52 =
        employee ++ beBytes 32 salary := by
      rw [← hESl]; exact List.take_length _
    have hESd : (employee ++ beBytes 32 salary).drop 84 = [] :=
      List.drop_eq_nil_of_le (by omega)
    have e3 : writeSlice (employee ++ beBytes 32 salary ++ List.replicate 32 0)
          52 (beBytes 32 timestamp)
        = employee ++ beBytes 32 salary ++ beBytes 32 timestamp := by
      have h52 : (employee ++ (beBytes 32 salary ++ List.replicate 32 0)).take 52
          = employee ++ beBytes 32 salary := by
        rw [← List.append_assoc, List.take_append_eq_append_take, hESt, hESl]
        simp
      have h84 : (employee ++ (beBytes 32 salary ++ List.replicate 32 0)).drop 84
          = [] := by
        rw [← List.append_assoc, List.drop_append_eq_append_drop, hESd, hESl]
        simp [List.drop_replicate]
      simp only [writeSlice, hT]
      norm_num
      rw [h52, h84]
      simp
    show keccak (writeSlice (writeSlice (writeSlice (List.replicate 84 0) 0
      employee) 20 (beBytes 32 salary)) 52 (beBytes 32 timestamp)) = _
    rw [e1, e2, e3]
  · simp [beBytes_length, hlen]
  · rw [beDecode_beBytes, ← hpow, Nat.mod_eq_of_lt hs]
  · rw [beDecode_beBytes, ← hpow, Nat.mod_eq_of_lt ht]

/-- Witness for C5 at a concrete input (identity "hash", a 20-byte address,
salary 1, timestamp 2). -/
theorem c5_witness :
    ((List.replicate 20 7 : List Nat).length = 20 ∧ (1 : Nat) < 2 ^ 256 ∧
      (2 : Nat) < 2 ^ 256) ∧
    (create_message_hash (fun l => l) (List.replicate 20 7) 1 2 =
        (fun l => l) (List.replicate 20 7 ++ beBytes 32 1 ++ beBytes 32 2) ∧
      (List.replicate 20 7 ++ beBytes 32 1 ++ beBytes 32 2).length = 84 ∧
      beDecode (beBytes 32 1) = 1 ∧ beDecode (beBytes 32 2) = 2) :=
  ⟨⟨by decide, by norm_num, by norm_num⟩,
    c5_create_message_hash_spec (fun l => l) (List.replicate 20 7) 1 2
      (by decide) (by norm_num) (by norm_num)⟩

/-! ## RWA claims (`src/core/src/rwa.rs`, `src/core/src/agent/validator.rs`,
`src/guest/rwa_compliance/src/main.rs`) -/

/-- The struct `RwaClaim` of `rwa.rs`: `institutional_pubkey` is `[u8; 32]`,
`balance` and `threshold` are `u64`, `signature` is `[u8; 64]`. -/
structure RwaClaim where
  institutional_pubkey : List Nat
  balance : Nat
  threshold : Nat
  signature : List Nat
deriving DecidableEq, Repr

/-- `RwaClaim::message_to_sign`: `self.balance.to_le_bytes()`. -/
def RwaClaim.message_to_sign (claim : RwaClaim) : List Nat :=
  leBytes 8 claim.balance

/-- C8: `message_to_sign` returns exactly the 8-byte little-endian encoding
of `balance` (byte `i` is `balance >> 8·i mod 256`); on balance `12345` it is
`[0x39, 0x30, 0, 0, 0, 0, 0, 0]`. -/
theorem c8_message_to_sign_le (claim : RwaClaim) :
    claim.message_to_sign =
      [claim.balance % 256, claim.balance / 256 % 256,
       claim.balance / 256 ^ 2 % 256, claim.balance / 256 ^ 3 % 256,
       claim.balance / 256 ^ 4 % 256, claim.balance / 256 ^ 5 % 256,
       claim.balance / 256 ^ 6 % 256, claim.balance / 256 ^ 7 % 256] ∧
    RwaClaim.message_to_sign ⟨[], 12345, 0, []⟩ = [57, 48, 0, 0, 0, 0, 0, 0] := by
  constructor
  · exact leBytes_eight claim.balance
  · decide

/-- The struct `ValidationResult` of `validator.rs`. -/
structure ValidationResult where
  is_valid : Bool
  errors : List String
  warnings : List String
deriving DecidableEq, Repr

/-- `SchemaValidator::validate`: zero balance and threshold-exceeds-balance
push errors; placeholder-looking pubkey/signature and a balance over
100,000,000,000 push warnings; `is_valid` is `errors.is_empty()`. -/
def SchemaValidator.validate (claim : RwaClaim) : ValidationResult :=
  let errors :=
    (if claim.balance = 0 then ["Balance cannot be zero"] else []) ++
    (if claim.threshold > claim.balance then ["Threshold cannot exceed balance"]
     else [])
  let warnings :=
    (if claim.institutional_pubkey = List.replicate 32 0 then
      ["Institutional pubkey appears to be placeholder"] else []) ++
    (if claim.signature = List.replicate 64 0 then
      ["Signature appears to be placeholder"] else []) ++
    (if claim.balance > 100000000000 then
      ["Balance exceeds $1 billion - please verify"] else [])
  { is_valid := errors.isEmpty, errors := errors, warnings := warnings }

/-- C9: validation fails exactly when the balance is zero or the threshold
exceeds the balance, each such condition contributing its error message;
placeholder-looking pubkey or signature and suspiciously large balances are
warnings only and never make `is_valid` false on their own. -/
theorem c9_validate_spec (claim : RwaClaim) :
    ((SchemaValidator.validate claim).is_valid = false ↔
      (claim.balance = 0 ∨ claim.threshold > claim.balance)) ∧
    (claim.balance = 0 →
      "Balance cannot be zero" ∈ (SchemaValidator.validate claim).errors) ∧
    (claim.threshold > claim.balance →
      "Threshold cannot exceed balance" ∈ (SchemaValidator.validate claim).errors) ∧
    (claim.balance ≠ 0 → claim.threshold ≤ claim.balance →
      (SchemaValidator.validate claim).is_valid = true) := by
  refine ⟨?_, ?_, ?_, ?_⟩
  · by_cases h0 : claim.balance = 0 <;>
      by_cases ht : claim.threshold > claim.balance <;>
        simp [SchemaValidator.validate, h0, ht, Nat.not_lt.mp]
  · intro h0
    simp [SchemaValidator.validate, h0]
  · intro ht
    by_cases h0 : claim.balance = 0 <;>
      (simp [SchemaValidator.validate, h0, ht]; try omega)
  · intro h0 ht
    simp [SchemaValidator.validate, h0, Nat.not_lt.mpr ht]

/-- Witness for C9 at a concrete input: an all-zero pubkey, all-zero
signature, balance above 100,000,000,000 and satisfied threshold is still
valid. -/
theorem c9_witness :
    ((SchemaValidator.validate
        ⟨List.replicate 32 0, 200000000000, 1, List.replicate 64 0⟩).is_valid
          = false ↔
      ((200000000000 : Nat) = 0 ∨ (1 : Nat) > 200000000000)) ∧
    ((200000000000 : Nat) = 0 →
      "Balance cannot be zero" ∈ (SchemaValidator.validate
        ⟨List.replicate 32 0, 200000000000, 1, List.replicate 64 0⟩).errors) ∧
    ((1 : Nat) > 200000000000 →
      "Threshold cannot exceed balance" ∈ (SchemaValidator.validate
        ⟨List.replicate 32 0, 200000000000, 1, List.replicate 64 0⟩).errors) ∧
    ((200000000000 : Nat) ≠ 0 → (1 : Nat) ≤ 200000000000 →
      (SchemaValidator.validate
        ⟨List.replicate 32 0, 200000000000, 1, List.replicate 64 0⟩).is_valid
          = true) :=
  c9_validate_spec ⟨List.replicate 32 0, 200000000000, 1, List.replicate 64 0⟩

/-- The `main` of the SP1 guest program `rwa_compliance`, as a function of
the deserialized private input.  `edVerify sig pk msg` abstracts the
`sp1_zkvm::lib::verify_ed25519` precompile (argument order as in the call
site).  The two `assert!`s (invalid signature, balance below threshold) abort
proof generation, modelled as `none`; on success the journal holds exactly
the committed public values: `institutional_pubkey` then `threshold`. -/
def guestMain (edVerify : List Nat → List Nat → List Nat → Bool)
    (claim : RwaClaim) : Option (List Nat × Nat) :=
  let message := leBytes 8 claim.balance
  if edVerify claim.signature claim.institutional_pubkey message then
    if claim.balance ≥ claim.threshold then
      some (claim.institutional_pubkey, claim.threshold)
    else none
  else none

/-- C6: the guest commits only `institutional_pubkey` and `threshold` to its
public output — two claims agreeing on those fields and both satisfying the
guest's preconditions produce identical journals, whatever their balances
and signatures — and a run completes successfully exactly when the signature
verifies over `balance.to_le_bytes()` and `balance ≥ threshold`. -/
theorem c6_guest_commits_only_public
    (edVerify : List Nat → List Nat → List Nat → Bool) (c1 c2 : RwaClaim)
    (hpk : c1.institutional_pubkey = c2.institutional_pubkey)
    (hth : c1.threshold = c2.threshold)
    (hs1 : edVerify c1.signature c1.institutional_pubkey (leBytes 8 c1.balance) = true)
    (hb1 : c1.balance ≥ c1.threshold)
    (hs2 : edVerify c2.signature c2.institutional_pubkey (leBytes 8 c2.balance) = true)
    (hb2 : c2.balance ≥ c2.threshold) :
    guestMain edVerify c1 = guestMain edVerify c2 ∧
    guestMain edVerify c1 = some (c1.institutional_pubkey, c1.threshold) ∧
    ∀ cl : RwaClaim, (guestMain edVerify cl).isSome = true ↔
      (edVerify cl.signature cl.institutional_pubkey (leBytes 8 cl.balance) = true ∧
        cl.threshold ≤ cl.balance) := by
  have h1 : guestMain edVerify c1 = some (c1.institutional_pubkey, c1.threshold) := by
    simp [guestMain, hs1, hb1]
  have h2 : guestMain edVerify c2 = some (c2.institutional_pubkey, c2.threshold) := by
    simp [guestMain, hs2, hb2]
  refine ⟨by rw [h1, h2, hpk, hth], h1, ?_⟩
  intro cl
  by_cases hsv : edVerify cl.signature cl.institutional_pubkey (leBytes 8 cl.balance) = true
  · by_cases hbv : cl.threshold ≤ cl.balance <;>
      simp [guestMain, hsv, hbv]
  · simp only [Bool.not_eq_true] at hsv
    simp [guestMain, hsv]

/-- Witness for C6 at a concrete input: always-accepting signature check, two
claims sharing pubkey `[1]` and threshold 5 with different balances (7 and 9)
and signatures. -/
theorem c6_witness :
    guestMain (fun _ _ _ => true) ⟨[1], 7, 5, [2]⟩ =
      guestMain (fun _ _ _ => true) ⟨[1], 9, 5, [3]⟩ ∧
    guestMain (fun _ _ _ => true) ⟨[1], 7, 5, [2]⟩ = some ([1], 5) ∧
    ∀ cl : RwaClaim, (guestMain (fun _ _ _ => true) cl).isSome = true ↔
      ((fun _ _ _ => true) cl.signature cl.institutional_pubkey
          (leBytes 8 cl.balance) = true ∧
        cl.threshold ≤ cl.balance) :=
  c6_guest_commits_only_public (fun _ _ _ => true) ⟨[1], 7, 5, [2]⟩
    ⟨[1], 9, 5, [3]⟩ rfl rfl rfl (by decide) rfl (by decide)

/-! ## Merkle inclusion proof

The repository's `src/` tree carries the Merkle-proof *generation* side
(`src/cli/src/bin/generate_inputs.rs`: SHA-256 leaves over the 8-byte
little-endian balance, proof hashes from `rs_merkle`), but the
`verify_merkle_proof` function itself is not among the source files, so the
verifier is modelled from the spec.  `combine l r` abstracts
`sha256(l ‖ r)`. -/

/-- Leaf construction from `generate_inputs.rs`: the leaf for an account
balance is `sha256(balance.to_le_bytes())` (`sha` abstract). -/
def merkleLeaf {H : Type} (sha : List Nat → H) (balance : Nat) : H :=
  sha (leBytes 8 balance)

/-- Modelled from the spec: `verify_merkle_proof(root, proof_hashes, leaf,
leaf_index) -> bool` is absent from the source tree; per the spec it
"reconstructs the root by iteratively combining the leaf with each sibling
hash in `proof_hashes`, using `leaf_index`'s bit pattern to determine
left/right combination order at each level, and compares the final value to
`root`" — at each level the current node is the left child when the current
index bit is 0, and the index is halved. -/
def verify_merkle_proof {H : Type} [DecidableEq H] (combine : H → H → H)
    (root : H) (proof_hashes : List H) (leaf : H) (leaf_index : Nat) : Bool :=
  decide ((proof_hashes.foldl
    (fun (st : H × Nat) sib =>
      (if st.2 % 2 = 0 then combine st.1 sib else combine sib st.1, st.2 / 2))
    (leaf, leaf_index)).1 = root)

/-- The root reconstruction written with explicit bit indexing: at level `k`
the sibling is combined on the right when bit `k` of `leaf_index` is 0, on
the left when it is 1. -/
def reconstructFromBits {H : Type} (combine : H → H → H) (leaf_index : Nat) :
    List H → H → Nat → H
  | [], leaf, _ => leaf
  | sib :: rest, leaf, k =>
    reconstructFromBits combine leaf_index rest
      (if leaf_index.testBit k = false then combine leaf sib else combine sib leaf)
      (k + 1)

theorem reconstruct_shift {H : Type} (combine : H → H → H)
    (proof : List H) (idx : Nat) :
    ∀ (leaf : H) (k : Nat),
      (proof.foldl
        (fun (st : H × Nat) sib =>
          (if st.2 % 2 = 0 then combine st.1 sib else combine sib st.1, st.2 / 2))
        (leaf, idx / 2 ^ k)).1 =
      reconstructFromBits combine idx proof leaf k := by
  induction proof with
  | nil => intro leaf k; rfl
  | cons sib rest ih =>
    intro leaf k
    have hbit : idx.testBit k = decide (idx / 2 ^ k % 2 = 1) :=
      Nat.testBit_to_div_mod
    have hdiv : idx / 2 ^ k / 2 = idx / 2 ^ (k + 1) := by
      rw [Nat.div_div_eq_div_mul, pow_succ]
    simp only [List.foldl_cons, reconstructFromBits]
    rw [← ih _ (k + 1), ← hdiv]
    by_cases h : idx / 2 ^ k % 2 = 0
    · have ht : idx.testBit k = false := by
        rw [hbit]; simp [h]
      simp [h, ht]
    · have h1 : idx / 2 ^ k % 2 = 1 := by omega
      have ht : idx.testBit k = true := by
        rw [hbit]; simp [h1]
      simp [h, ht]

/-- C7: the (spec-modelled) Merkle verifier returns `true` exactly when
iteratively combining the leaf with the sibling hashes — left/right order at
level `k` given by bit `k` of `leaf_index` — reproduces `root`; and the leaf
value used by the generator is `sha256` of the balance's 8-byte little-endian
encoding. -/
theorem c7_verify_merkle_proof_spec {H : Type} [DecidableEq H]
    (combine : H → H → H) (sha : List Nat → H)
    (root leaf : H) (proof_hashes : List H) (leaf_index balance : Nat) :
    (verify_merkle_proof combine root proof_hashes leaf leaf_index = true ↔
      reconstructFromBits combine leaf_index proof_hashes leaf 0 = root) ∧
    merkleLeaf sha balance =
      sha [balance % 256, balance / 256 % 256,
        balance / 256 ^ 2 % 256, balance / 256 ^ 3 % 256,
        balance / 256 ^ 4 % 256, balance / 256 ^ 5 % 256,
        balance / 256 ^ 6 % 256, balance / 256 ^ 7 % 256] := by
  constructor
  · have h0 : leaf_index / 2 ^ 0 = leaf_index := by simp
    unfold verify_merkle_proof
    rw [show ((leaf, leaf_index) : H × Nat) = (leaf, leaf_index / 2 ^ 0) by rw [h0],
      reconstruct_shift]
    simp
  · unfold merkleLeaf
    rw [leBytes_eight]

/-- Witness for C7 at a concrete input. -/
theorem c7_witness :
    (verify_merkle_proof (fun a b => 2 * a + 3 * b) 21 [2, 3] 1 2 = true ↔
      reconstructFromBits (fun a b => 2 * a + 3 * b) 2 [2, 3] 1 0 = 21) ∧
    merkleLeaf (fun l => List.length l) 12345 = 8 :=
  c7_verify_merkle_proof_spec (fun a b => 2 * a + 3 * b)
    (fun l => List.length l) 21 1 [2, 3] 2 12345

/-! ## Audit trail (`src/core/src/logging/audit.rs`) -/

/-- The enum `AgentAction`. -/
inductive AgentAction where
  | ExtractClaim
  | GenerateProof
  | SubmitToChain
  | VerifyProof
  | ExportVerifier
deriving DecidableEq, Repr

/-- The struct `AuditEntry`.  Digests (`[u8; 32]` in the source) live in an
abstract digest type `H`; `confidence` (`f32`) in an abstract type `K` — the
trail only stores and compares these values. -/
structure AuditEntry (H K : Type) where
  timestamp : Int
  action : AgentAction
  input_hash : H
  output_hash : H
  decision_logic_hash : H
  confidence : K
  previous_hash : H
  nonce : Nat
deriving DecidableEq

/-- The hashing operations of `audit.rs`, abstract: `byteHash` models
`AuditEntry::hash` (SHA-256 of raw bytes); `entryHash` models
`AuditEntry::compute_hash` (SHA-256 of the entry's `serde_json` encoding);
`listHash` models the `trail_hash` computation (SHA-256 of the entry list's
`serde_json` encoding); `hzero` models `[0u8; 32]`. -/
structure AuditCrypto (H K : Type) where
  byteHash : List Nat → H
  entryHash : AuditEntry H K → H
  listHash : List (AuditEntry H K) → H
  hzero : H

/-- The struct `ZkAuditTrail`. -/
structure ZkAuditTrail (H K : Type) where
  entries : List (AuditEntry H K)
  trail_hash : H
  created_at : Int

/-- `ZkAuditTrail::new`: empty entry list, all-zero trail hash. -/
def ZkAuditTrail.new {H K : Type} (c : AuditCrypto H K) (created_at : Int) :
    ZkAuditTrail H K :=
  { entries := [], trail_hash := c.hzero, created_at := created_at }

/-- `ZkAuditTrail::add_entry`: `previous_hash` is the hash of the last entry
(or all-zero), `nonce` is the current entry count, the entry is appended and
`trail_hash` recomputed over the whole serialized sequence.  The entry's
`timestamp` (`SystemTime::now()` in the source) is an input of the model. -/
def ZkAuditTrail.add_entry {H K : Type} (c : AuditCrypto H K)
    (t : ZkAuditTrail H K) (timestamp : Int) (action : AgentAction)
    (input output decision_logic : List Nat) (confidence : K) :
    ZkAuditTrail H K :=
  let previous_hash :=
    match t.entries.getLast? with
    | some e => c.entryHash e
    | none => c.hzero
  let nonce := t.entries.length
  let entry : AuditEntry H K :=
    { timestamp := timestamp, action := action,
      input_hash := c.byteHash input, output_hash := c.byteHash output,
      decision_logic_hash := c.byteHash decision_logic,
      confidence := confidence, previous_hash := previous_hash, nonce := nonce }
  let new_entries := t.entries ++ [entry]
  { entries := new_entries, trail_hash := c.listHash new_entries,
    created_at := t.created_at }

/-- The hash-chain loop of `ZkAuditTrail::verify_integrity`: every entry
after the first carries the hash of its predecessor. -/
def chainOk {H K : Type} [DecidableEq H] (c : AuditCrypto H K) :
    List (AuditEntry H K) → Bool
  | [] => true
  | [_] => true
  | e1 :: e2 :: rest =>
    decide (e2.previous_hash = c.entryHash e1) && chainOk c (e2 :: rest)

/-- `ZkAuditTrail::verify_integrity`: the chain check, then the recomputed
trail hash compared against the stored one. -/
def ZkAuditTrail.verify_integrity {H K : Type} [DecidableEq H]
    (c : AuditCrypto H K) (t : ZkAuditTrail H K) : Bool :=
  chainOk c t.entries && decide (c.listHash t.entries = t.trail_hash)

/-- One `add_entry` call's arguments. -/
structure AddArgs (K : Type) where
  timestamp : Int
  action : AgentAction
  input : List Nat
  output : List Nat
  decision_logic : List Nat
  confidence : K
deriving DecidableEq

/-- A finite sequence of `add_entry` calls. -/
def addEntries {H K : Type} (c : AuditCrypto H K) :
    ZkAuditTrail H K → List (AddArgs K) → ZkAuditTrail H K
  | t, [] => t
  | t, a :: rest =>
    addEntries c
      (ZkAuditTrail.add_entry c t a.timestamp a.action a.input a.output
        a.decision_logic a.confidence) rest

theorem chainOk_append {H K : Type} [DecidableEq H] (c : AuditCrypto H K) :
    ∀ (l : List (AuditEntry H K)) (e : AuditEntry H K),
      chainOk c (l ++ [e]) =
        (chainOk c l &&
          match l.getLast? with
          | none => true
          | some p => decide (e.previous_hash = c.entryHash p)) := by
  intro l
  induction l with
  | nil => intro e; simp [chainOk]
  | cons x rest ih =>
    intro e
    cases rest with
    | nil => simp [chainOk]
    | cons y rest2 =>
      have step : chainOk c ((x :: y :: rest2) ++ [e]) =
          (decide (y.previous_hash = c.entryHash x) &&
            chainOk c ((y :: rest2) ++ [e])) := rfl
      rw [step, ih e, List.getLast?_cons_cons]
      show _ = ((decide (y.previous_hash = c.entryHash x) &&
        chainOk c (y :: rest2)) && _)
      rw [Bool.and_assoc]

theorem chainOk_iff_links {H K : Type} [DecidableEq H] (c : AuditCrypto H K) :
    ∀ (l : List (AuditEntry H K)),
      chainOk c l = true ↔
        ∀ i (h : i + 1 < l.length),
          (l.get ⟨i + 1, h⟩).previous_hash =
            c.entryHash (l.get ⟨i, Nat.lt_of_succ_lt h⟩) := by
  intro l
  induction l with
  | nil =>
    simp only [chainOk, List.length_nil, true_iff]
    intro i h
    omega
  | cons x rest ih =>
    cases rest with
    | nil =>
      simp only [chainOk, List.length_cons, List.length_nil, true_iff]
      intro i h
      omega
    | cons y rest2 =>
      have step : chainOk c (x :: y :: rest2) =
          (decide (y.previous_hash = c.entryHash x) && chainOk c (y :: rest2)) :=
        rfl
      rw [step, Bool.and_eq_true, decide_eq_true_iff, ih]
      constructor
      · rintro ⟨h0, hrec⟩ i h
        cases i with
        | zero => exact h0
        | succ j =>
          exact hrec j (by simp only [List.length_cons] at h ⊢; omega)
      · intro hall
        refine ⟨hall 0 (by simp), fun j hj => ?_⟩
        exact hall (j + 1) (by simp only [List.length_cons] at hj ⊢; omega)

/-- Invariant of trails reachable through `add_entry`: valid hash chain,
positional nonces, and (once nonempty) a trail hash recomputable from the
entries. -/
def TrailGood {H K : Type} [DecidableEq H] (c : AuditCrypto H K)
    (t : ZkAuditTrail H K) : Prop :=
  chainOk c t.entries = true ∧
  (∀ i (h : i < t.entries.length), (t.entries.get ⟨i, h⟩).nonce = i) ∧
  (t.entries ≠ [] → t.trail_hash = c.listHash t.entries)

theorem trailGood_new {H K : Type} [DecidableEq H] (c : AuditCrypto H K)
    (t0 : Int) : TrailGood c (ZkAuditTrail.new c t0) := by
  refine ⟨rfl, ?_, ?_⟩
  · intro i h
    simp [ZkAuditTrail.new] at h
  · intro h
    simp [ZkAuditTrail.new] at h

theorem nonce_append {H K : Type} (l : List (AuditEntry H K))
    (E : AuditEntry H K)
    (hn : ∀ i (h : i < l.length), (l.get ⟨i, h⟩).nonce = i)
    (hE : E.nonce = l.length) :
    ∀ i (h : i < (l ++ [E]).length), ((l ++ [E]).get ⟨i, h⟩).nonce = i := by
  intro i h
  rcases Nat.lt_or_ge i l.length with hi | hi
  · have hget : (l ++ [E]).get ⟨i, h⟩ = l.get ⟨i, hi⟩ := by
      simp [List.getElem_append_left hi]
    rw [hget]
    exact hn i hi
  · have hieq : i = l.length := by
      simp only [List.length_append, List.length_singleton] at h
      omega
    subst hieq
    have : (l ++ [E]).get ⟨l.length, h⟩ = E := by
      simp
    rw [this, hE]

theorem trailGood_add_entry {H K : Type} [DecidableEq H] (c : AuditCrypto H K)
    (t : ZkAuditTrail H K) (a : AddArgs K) (hg : TrailGood c t) :
    TrailGood c (ZkAuditTrail.add_entry c t a.timestamp a.action a.input
      a.output a.decision_logic a.confidence) := by
  obtain ⟨hchain, hnonce, _⟩ := hg
  refine ⟨?_, ?_, fun _ => rfl⟩
  · rw [show (ZkAuditTrail.add_entry c t a.timestamp a.action a.input a.output
        a.decision_logic a.confidence).entries = t.entries ++ [_] from rfl]
    rw [chainOk_append]
    cases hlast : t.entries.getLast? with
    | none => simp [hchain, hlast]
    | some p => simp [hchain, hlast]
  · exact nonce_append t.entries _ hnonce rfl
theorem trailGood_addEntries {H K : Type} [DecidableEq H]
    (c : AuditCrypto H K) (args : List (AddArgs K)) :
    ∀ t : ZkAuditTrail H K, TrailGood c t →
      TrailGood c (addEntries c t args) ∧
      (addEntries c t args).entries.length = t.entries.length + args.length := by
  induction args with
  | nil =>
    intro t hg
    exact ⟨hg, by simp [addEntries]⟩
  | cons a rest ih =>
    intro t hg
    have hstep := trailGood_add_entry c t a hg
    have hrec := ih _ hstep
    refine ⟨hrec.1, ?_⟩
    rw [show addEntries c t (a :: rest) =
      addEntries c (ZkAuditTrail.add_entry c t a.timestamp a.action a.input
        a.output a.decision_logic a.confidence) rest from rfl]
    rw [hrec.2]
    simp [ZkAuditTrail.add_entry, List.length_cons]
    omega

/-- C3 (amended): every trail obtained from `ZkAuditTrail::new()` by a
nonempty finite sequence of `add_entry` calls links every entry to the hash
of its predecessor, numbers entries by position (`nonce = i`), stores
`trail_hash = hash(serialize(entries))`, and passes `verify_integrity`;
replacing any one stored entry, whenever the replacement changes the
serialized list's hash (no hash collision), makes `verify_integrity` false.
The original claim's "any finite sequence" also admits the empty sequence,
on which the trail-hash invariant and `verify_integrity` fail. -/
theorem c3_audit_chain_invariants {H K : Type} [DecidableEq H]
    (c : AuditCrypto H K) (t0 : Int) (args : List (AddArgs K))
    (hne : args ≠ []) :
    let tr := addEntries c (ZkAuditTrail.new c t0) args
    (∀ i (h : i + 1 < tr.entries.length),
      (tr.entries.get ⟨i + 1, h⟩).previous_hash =
        c.entryHash (tr.entries.get ⟨i, Nat.lt_of_succ_lt h⟩)) ∧
    (∀ i (h : i < tr.entries.length), (tr.entries.get ⟨i, h⟩).nonce = i) ∧
    tr.trail_hash = c.listHash tr.entries ∧
    ZkAuditTrail.verify_integrity c tr = true ∧
    (∀ i (_h : i < tr.entries.length) (e : AuditEntry H K),
      c.listHash (tr.entries.set i e) ≠ c.listHash tr.entries →
      ZkAuditTrail.verify_integrity c
        { tr with entries := tr.entries.set i e } = false) := by
  intro tr
  obtain ⟨⟨hchain, hnonce, hhash⟩, hlen⟩ :=
    trailGood_addEntries c args (ZkAuditTrail.new c t0) (trailGood_new c t0)
  have hlen0 : (ZkAuditTrail.new c t0 : ZkAuditTrail H K).entries.length = 0 :=
    rfl
  have hne2 : tr.entries ≠ [] := by
    intro hcon
    apply hne
    have : tr.entries.length = 0 := by rw [hcon]; rfl
    rw [hlen, hlen0] at this
    exact List.length_eq_zero.mp (by omega)
  have htr : tr.trail_hash = c.listHash tr.entries := hhash hne2
  refine ⟨(chainOk_iff_links c tr.entries).mp hchain, hnonce, htr, ?_, ?_⟩
  · unfold ZkAuditTrail.verify_integrity
    rw [hchain, htr]
    simp
  · intro i h e hdiff
    show (chainOk c (tr.entries.set i e) &&
      decide (c.listHash (tr.entries.set i e) = tr.trail_hash)) = false
    rw [htr, decide_eq_false hdiff, Bool.and_false]

/-- C10: a freshly created, empty audit trail fails its own integrity check:
`new()` stores the all-zero `trail_hash`, while `verify_integrity`
recomputes the hash of the serialized empty entry list, which (as for real
SHA-256 over `serde_json` output) is not the all-zero digest. -/
theorem c10_empty_trail_fails {H K : Type} [DecidableEq H]
    (c : AuditCrypto H K) (t0 : Int)
    (hne : c.listHash ([] : List (AuditEntry H K)) ≠ c.hzero) :
    (ZkAuditTrail.new c t0).trail_hash = c.hzero ∧
    ZkAuditTrail.verify_integrity c (ZkAuditTrail.new c t0) = false := by
  refine ⟨rfl, ?_⟩
  unfold ZkAuditTrail.verify_integrity
  rw [show (ZkAuditTrail.new c t0).entries = ([] : List (AuditEntry H K))
    from rfl]
  rw [show (ZkAuditTrail.new c t0).trail_hash = c.hzero from rfl]
  rw [show chainOk c ([] : List (AuditEntry H K)) = true from rfl]
  rw [decide_eq_false hne]
  rfl

/-- A concrete audit-hash instantiation whose list hash is the sequence of
entry timestamps: distinguishes the mutated trail of the C3 witness. -/
def auditCryptoT : AuditCrypto (List Int) Nat where
  byteHash := fun _ => []
  entryHash := fun e => [e.timestamp]
  listHash := fun l => l.map (fun e => e.timestamp)
  hzero := []

/-- A concrete audit-hash instantiation whose hash of the empty list is not
the zero digest, as for real SHA-256 of `serde_json` output. -/
def auditCryptoE : AuditCrypto (List Int) Nat where
  byteHash := fun _ => []
  entryHash := fun _ => []
  listHash := fun _ => [0]
  hzero := []

/-- The two `add_entry` calls of the C3 witness. -/
def c3args : List (AddArgs Nat) :=
  [⟨5, .ExtractClaim, [], [], [], 0⟩, ⟨7, .GenerateProof, [], [], [], 0⟩]

/-- C3 counterexample: with the empty sequence of `add_entry` calls — which
the claim's "any finite sequence" admits — the freshly created trail fails
`verify_integrity`, because `new()` stores the all-zero trail hash rather
than the hash of the serialized empty list. -/
theorem c3_counterexample :
    ZkAuditTrail.verify_integrity auditCryptoE
      (addEntries auditCryptoE (ZkAuditTrail.new auditCryptoE 0) []) = false :=
  rfl

/-- Witness for the amended C3 at a concrete input: two appended entries pass
`verify_integrity`, and mutating the first entry's timestamp is detected. -/
theorem c3_witness :
    c3args ≠ [] ∧
    ZkAuditTrail.verify_integrity auditCryptoT
      (addEntries auditCryptoT (ZkAuditTrail.new auditCryptoT 0) c3args) =
        true ∧
    ZkAuditTrail.verify_integrity auditCryptoT
      { addEntries auditCryptoT (ZkAuditTrail.new auditCryptoT 0) c3args with
        entries := (addEntries auditCryptoT (ZkAuditTrail.new auditCryptoT 0)
          c3args).entries.set 0 ⟨9, .ExtractClaim, [], [], [], 0, [], 0⟩ } =
        false := by
  refine ⟨List.cons_ne_nil _ _, ?_, ?_⟩
  · exact (c3_audit_chain_invariants auditCryptoT 0 c3args
      (List.cons_ne_nil _ _)).2.2.2.1
  · exact (c3_audit_chain_invariants auditCryptoT 0 c3args
      (List.cons_ne_nil _ _)).2.2.2.2 0 (by decide)
      ⟨9, .ExtractClaim, [], [], [], 0, [], 0⟩ (by decide)

/-- Witness for C10 at a concrete input. -/
theorem c10_witness :
    auditCryptoE.listHash ([] : List (AuditEntry (List Int) Nat)) ≠
      auditCryptoE.hzero ∧
    ((ZkAuditTrail.new auditCryptoE 0).trail_hash = auditCryptoE.hzero ∧
      ZkAuditTrail.verify_integrity auditCryptoE
        (ZkAuditTrail.new auditCryptoE 0) = false) :=
  ⟨by decide, c10_empty_trail_fails auditCryptoE 0 (by decide)⟩

end UPE
